import Mathlib

set_option maxRecDepth 10000

/-!
Verification of the MIDI byte-stream decoder and frame queue of the
jack_midi repository (src/midi_reader.c together with its header).

The C code is shallowly embedded:
* a MIDI frame (fixed byte array plus current length) becomes a list of
  the frame's first `len` bytes;
* the reader structure becomes a Lean structure; the file descriptor is
  modelled by a flag `fd_open` together with the list `input` of bytes the
  descriptor would deliver through read(2); the refill window
  buf[buf_offset .. buf_len) becomes the list `buf` plus the absolute
  window start `buf_pos` (so buf_len = buf_pos + buf.length);
* machine integers become Nat (byte values) or Int (the int-typed
  push_back slot and the return value of midi_reader_get_byte);
* the diagnostic dprintf calls (debug trace and dump side channel) have
  no effect on decoder state and are omitted.
-/

/-- Maximum count of bytes in a MIDI frame (MIDI_FRAME_MAX). -/
def MIDI_FRAME_MAX : Nat := 128

/-- Maximum count of frames in the queue (MIDI_FRAMES_MAX). -/
def MIDI_FRAMES_MAX : Nat := 256

/-- Maximum length of the refill buffer (MIDI_READER_BUF_MAX). -/
def MIDI_READER_BUF_MAX : Nat := 256

/-- Reader flag MIDIR_DEBUG (diagnostic trace only). -/
def MIDIR_DEBUG : Nat := 1

/-- Reader flag MIDIR_EXPAND: expand running status frames. -/
def MIDIR_EXPAND : Nat := 2

/-- State of a MIDI frame after a push (enum midi_frame_state_t). -/
inductive midi_frame_state_t where
  | MIDIF_IOERROR
  | MIDIF_NODATA
  | MIDIF_ERROR
  | MIDIF_NEXT
  | MIDIF_COMPLETE
  | MIDIF_SKIPPED
  deriving DecidableEq, Repr

open midi_frame_state_t

/-- A MIDI frame: the list of its first `len` bytes (struct midi_frame_t,
with data[0..len) the meaningful prefix of the fixed 128-byte array). -/
structure midi_frame_t where
  data : List Nat
  deriving DecidableEq, Repr

/-- Current length of a frame (the len field). -/
def midi_frame_t.len (mf : midi_frame_t) : Nat := mf.data.length

/-- The frame's first byte, data[0]; a reset frame stores 0 there. -/
def midi_frame_t.byte0 (mf : midi_frame_t) : Nat := mf.data.headD 0

/-- The all-zero frame (a frame after memset or midi_frame_reset). -/
def frameZero : midi_frame_t := ⟨[]⟩

/-- midi_frame_reset: len := 0, data[0] := 0. -/
def midi_frame_reset (_mf : midi_frame_t) : midi_frame_t := ⟨[]⟩

/-- The 256-entry expected-length table midi_frame_len, as a function of
the status byte: 0x00..0x7F are invalid (-1); channel voice 0x80..0xBF
have length 3, 0xC0..0xDF length 2, 0xE0..0xEF length 3; 0xF0 is the
variable-length marker -0xF0; system common 0xF1..0xF7 have lengths
2,3,2,1,1,1,1; system real-time 0xF8..0xFF have length 1. -/
def midi_frame_len (b : Nat) : Int :=
  if b ≤ 0x7F then -1
  else if b ≤ 0xBF then 3
  else if b ≤ 0xDF then 2
  else if b ≤ 0xEF then 3
  else if b = 0xF0 then -0xF0
  else if b = 0xF1 then 2
  else if b = 0xF2 then 3
  else if b = 0xF3 then 2
  else 1

/-- The reader state (struct midi_reader_t).  The descriptor fd is
modelled by `fd_open` (fd ≥ 0) and `input`, the bytes read(2) would
deliver; `buf` is the unconsumed refill window buf[buf_offset..buf_len)
and `buf_pos` the absolute window start buf_offset. -/
structure midi_reader_t where
  flags : Nat
  fd_open : Bool
  running : Nat
  frames_len : Nat
  frames_offset : Nat
  frames : List midi_frame_t
  to_skip : Option (List Nat)
  buf : List Nat
  buf_pos : Nat
  input : List Nat
  push_back : Int
  deriving DecidableEq, Repr

/-- midi_reader_init: zero the structure, store the flags and skip set,
set fd := -1 (closed) and push_back := -1. -/
def midi_reader_init (flags : Nat) (to_skip : Option (List Nat)) : midi_reader_t :=
  { flags := flags
    fd_open := false
    running := 0
    frames_len := 0
    frames_offset := 0
    frames := List.replicate MIDI_FRAMES_MAX frameZero
    to_skip := to_skip
    buf := []
    buf_pos := 0
    input := []
    push_back := -1 }

/-- midi_reader_set_fd: install a device descriptor; in the model this
makes the descriptor open and supplies the byte stream it will deliver. -/
def midi_reader_set_fd (r : midi_reader_t) (input : List Nat) : midi_reader_t :=
  { r with fd_open := true, input := input }

/-- midi_reader_close: close(fd), fd := -1, push_back := -1. -/
def midi_reader_close (r : midi_reader_t) : midi_reader_t :=
  { r with fd_open := false, push_back := -1 }

/-- The window-reset step of midi_reader_get_byte: when buf_offset has
reached buf_len the window cursors return to 0 (the window list is empty
and buf_pos returns to 0). -/
def window_reset (r : midi_reader_t) : midi_reader_t :=
  if r.buf.length = 0 then { r with buf_pos := 0 } else r

/-- The refill step of midi_reader_get_byte: when buf_len is below the
buffer capacity, read(2) appends the available device bytes, at most the
remaining room; a closed descriptor delivers nothing. -/
def window_refill (r : midi_reader_t) : midi_reader_t :=
  if r.buf_pos + r.buf.length < MIDI_READER_BUF_MAX ∧ r.fd_open then
    { r with buf := r.buf ++ r.input.take (MIDI_READER_BUF_MAX - (r.buf_pos + r.buf.length))
           , input := r.input.drop (MIDI_READER_BUF_MAX - (r.buf_pos + r.buf.length)) }
  else r

/-- The final step of midi_reader_get_byte: return the byte at
buf_offset, advancing the offset, or -1 when the window is empty. -/
def window_take (r2 : midi_reader_t) : Int × midi_reader_t :=
  match r2.buf with
  | [] => (-1, r2)
  | b :: rest => ((b : Int), { r2 with buf := rest, buf_pos := r2.buf_pos + 1 })

/-- midi_reader_get_byte: prefer the push-back byte; otherwise reset the
refill window when exhausted, refill it from the descriptor when there is
room, and return the byte at buf_offset (or -1 when none). -/
def midi_reader_get_byte (r : midi_reader_t) : Int × midi_reader_t :=
  if -1 < r.push_back then
    (r.push_back, { r with push_back := -1 })
  else
    window_take (window_refill (window_reset r))

/-- The zero-terminated skip-set scan in midi_frame_process: walk the
array until a zero entry or a match; the frame is skipped iff the scan
stopped on a nonzero (matching) entry. -/
def skip_lookup (l : List Nat) (b : Nat) : Bool :=
  match l with
  | [] => false
  | p :: rest => if p = 0 then false else if b = p then true else skip_lookup rest b

/-- The copy loop of midi_frame_expand_running: for i = 1, 3, 5, ...
append data[0], data[i], data[i+1]; here `s` is data[0] and the list is
data[1..len). -/
def expand_pairs (s : Nat) : List Nat → List Nat
  | d1 :: d2 :: rest => s :: d1 :: d2 :: expand_pairs s rest
  | _ => []

/-- midi_frame_expand_running: rewrite a compact running-status channel
voice frame into explicit 3-byte messages; leave other frames alone;
refuse (false) on odd data-byte count or when the expansion would
overflow MIDI_FRAME_MAX. -/
def midi_frame_expand_running (mf : midi_frame_t) : Bool × midi_frame_t :=
  if mf.byte0 < 0x80 ∨ (0xEF < mf.byte0 ∨ mf.len = 3) then
    (true, mf)
  else if (mf.len - 1) % 2 ≠ 0 then
    (false, mf)
  else if MIDI_FRAME_MAX < mf.len + (mf.len - 1) / 2 then
    (false, mf)
  else
    (true, ⟨expand_pairs mf.byte0 mf.data.tail⟩)

/-- midi_frame_process: skip filter (reset and MIDIF_NEXT on a match in
the skip set), then configuration-gated running-status expansion; the
diagnostic dump writes no decoder state and is omitted. -/
def midi_frame_process (r : midi_reader_t) (mf : midi_frame_t) : midi_frame_state_t × midi_frame_t :=
  let skipped := match r.to_skip with
    | some l => skip_lookup l mf.byte0
    | none => false
  if skipped then
    (MIDIF_NEXT, midi_frame_reset mf)
  else if r.flags &&& MIDIR_EXPAND ≠ 0 then
    (MIDIF_COMPLETE, (midi_frame_expand_running mf).2)
  else
    (MIDIF_COMPLETE, mf)

/-- The second half of midi_frame_push, after the running-status
finalize check: append the byte to the frame, look up the expected
length for the leading status byte and classify the outcome. -/
def midi_frame_push_append (r2 : midi_reader_t) (mf : midi_frame_t) (bn : Nat) :
    midi_frame_state_t × midi_reader_t × midi_frame_t :=
  let mf2 : midi_frame_t := ⟨mf.data ++ [bn]⟩
  let len := midi_frame_len mf2.byte0
  if len = -1 then
    (MIDIF_ERROR, { r2 with running := 0 }, midi_frame_reset mf2)
  else if len = -0xF0 ∧ 1 < mf2.len then
    if bn = 0xF7 then
      let pr := midi_frame_process r2 mf2
      (pr.1, r2, pr.2)
    else
      (MIDIF_NEXT, r2, mf2)
  else if r2.running = 0 ∧ len = (mf2.len : Int) then
    let pr := midi_frame_process r2 mf2
    (pr.1, r2, pr.2)
  else
    (MIDIF_NEXT, r2, mf2)

/-- midi_frame_push: read a byte and push it into the frame, returning
the frame state together with the updated reader and frame. -/
def midi_frame_push (r : midi_reader_t) (mf : midi_frame_t) : midi_frame_state_t × midi_reader_t × midi_frame_t :=
  if mf.len = MIDI_FRAME_MAX then
    (MIDIF_ERROR, { r with running := 0 }, midi_frame_reset mf)
  else
    let gb := midi_reader_get_byte r
    let r1 := gb.2
    if gb.1 < 0 then
      (MIDIF_NODATA, r1, mf)
    else if 0xFF < gb.1 then
      (MIDIF_IOERROR, r1, mf)
    else
      let bn := gb.1.toNat
      if r1.running ≠ 0 ∧ bn &&& 0x80 ≠ 0 then
        let r2 := { r1 with push_back := (bn : Int), running := 0 }
        if mf.len = 0 ∨ (mf.len - 1) % 2 = 1 then
          (MIDIF_ERROR, r2, midi_frame_reset mf)
        else
          let pr := midi_frame_process r2 mf
          (pr.1, r2, pr.2)
      else
        let r2 := if mf.len = 0 then
                    if 0x80 ≤ bn ∧ bn ≤ 0xEF then { r1 with running := bn }
                    else { r1 with running := 0 }
                  else r1
        midi_frame_push_append r2 mf bn

/-- midi_reader_read_one: push one byte into the frame slot at the write
cursor; on MIDIF_COMPLETE advance the write cursor. -/
def midi_reader_read_one (r : midi_reader_t) : midi_frame_state_t × midi_reader_t :=
  let current := r.frames.getD r.frames_len frameZero
  let p := midi_frame_push r current
  let r1 := { p.2.1 with frames := p.2.1.frames.set r.frames_len p.2.2 }
  if p.1 = MIDIF_COMPLETE then
    (p.1, { r1 with frames_len := r1.frames_len + 1 })
  else
    (p.1, r1)

/-- The memset of the whole midi_frames_t structure inside
midi_reader_update: both cursors to 0 and every slot zeroed. -/
def clear_frames (r : midi_reader_t) : midi_reader_t :=
  { r with frames_len := 0
         , frames_offset := 0
         , frames := List.replicate MIDI_FRAMES_MAX frameZero }

/-- midi_reader_update: report whether a frame is available, reading one
more byte when the queue has room (or after clearing a fully drained
queue that reached capacity). -/
def midi_reader_update (r : midi_reader_t) : Bool × midi_reader_t :=
  if r.frames_len = 0 then
    let p := midi_reader_read_one r
    (p.1 = MIDIF_COMPLETE, p.2)
  else if r.frames_len < MIDI_FRAMES_MAX then
    if r.frames_offset < r.frames_len then
      (true, r)
    else
      let p := midi_reader_read_one r
      (p.1 = MIDIF_COMPLETE, p.2)
  else
    if r.frames_offset < r.frames_len then
      (true, r)
    else
      let p := midi_reader_read_one (clear_frames r)
      (p.1 = MIDIF_COMPLETE, p.2)

/-- midi_reader_get_next: run update, then hand out the frame at the read
cursor (advancing it) when one is available. -/
def midi_reader_get_next (r : midi_reader_t) : Option midi_frame_t × midi_reader_t :=
  let u := midi_reader_update r
  if ¬ u.1 then
    (none, u.2)
  else if 0 < u.2.frames_len ∧ u.2.frames_offset < u.2.frames_len then
    (some (u.2.frames.getD u.2.frames_offset frameZero),
     { u.2 with frames_offset := u.2.frames_offset + 1 })
  else
    (none, u.2)

/-- midi_reader_clear_queue: when frames are queued, copy the in-progress
frame from the slot at the write cursor into slot 0 and zero both
cursors. -/
def midi_reader_clear_queue (r : midi_reader_t) : midi_reader_t :=
  if 0 < r.frames_len then
    { r with frames := r.frames.set 0 (r.frames.getD r.frames_len frameZero)
           , frames_len := 0
           , frames_offset := 0 }
  else
    r

/-- The push-back slot viewed as a (zero- or one-byte) list. -/
def pbList (p : Int) : List Nat := if -1 < p then [p.toNat] else []

/-- All bytes the decoder can still obtain, in order: the push-back byte,
the refill window, then (when the descriptor is open) the device bytes. -/
def pending (r : midi_reader_t) : List Nat :=
  pbList r.push_back ++ r.buf ++ (if r.fd_open then r.input else [])

/-- Equality of all reader fields except the byte-source fields (buf,
buf_pos, input, push_back): the configuration, running status and the
frame queue. -/
def core_eq (a b : midi_reader_t) : Prop :=
  a.flags = b.flags ∧ a.fd_open = b.fd_open ∧ a.running = b.running ∧
  a.frames_len = b.frames_len ∧ a.frames_offset = b.frames_offset ∧
  a.frames = b.frames ∧ a.to_skip = b.to_skip

/-- The byte-range invariant of the reader's byte sources: the refill
window and the device stream hold unsigned chars, and the push-back
slot holds -1 or a byte that passed the 0xFF check. -/
def byte_inv (r : midi_reader_t) : Prop :=
  (∀ x ∈ r.buf, x ≤ 0xFF) ∧ (∀ x ∈ r.input, x ≤ 0xFF) ∧ r.push_back ≤ 0xFF

/-- Drive midi_frame_push until it reports no data, collecting completed
frames in order; fail (none) on any error outcome or fuel exhaustion. -/
def drainPush : Nat → midi_reader_t → midi_frame_t → List midi_frame_t →
    Option (List midi_frame_t × midi_frame_t)
  | 0, _, _, _ => none
  | fuel + 1, r, mf, acc =>
    match midi_frame_push r mf with
    | (MIDIF_NODATA, _, mf1) => some (acc, mf1)
    | (MIDIF_NEXT, r1, mf1) => drainPush fuel r1 mf1 acc
    | (MIDIF_COMPLETE, r1, mf1) => drainPush fuel r1 frameZero (acc ++ [mf1])
    | _ => none

/-- Decode a byte stream with expansion disabled and no skip set: the
frames produced in FIFO order together with the trailing partial frame. -/
def midi_decode (input : List Nat) (fuel : Nat) : Option (List midi_frame_t × midi_frame_t) :=
  drainPush fuel (midi_reader_set_fd (midi_reader_init 0 none) input) frameZero []

/-- The bytes of a list of frames, concatenated in order. -/
def frames_bytes (l : List midi_frame_t) : List Nat :=
  (l.map midi_frame_t.data).flatten

/-- Chunk a list into its consecutive pairs (specification-side view of
the running-status data bytes). -/
def pairs_of : List Nat → List (List Nat)
  | d1 :: d2 :: rest => [d1, d2] :: pairs_of rest
  | _ => []

/-- Concrete state: active running status 0x90 with the status byte 0x80
of the next message already in the push-back slot. -/
def c1w_reader : midi_reader_t :=
  { midi_reader_init 0 none with running := 0x90, push_back := Int.ofNat 0x80 }

/-- Concrete in-progress frame with an odd accumulated data-byte count. -/
def c1w_frame : midi_frame_t := ⟨[0x90, 10]⟩

/-- Concrete state: queue at capacity and fully drained, one byte 0xF8
waiting in the refill window. -/
def c2w_reader : midi_reader_t :=
  { midi_reader_init 0 none with
      frames_len := MIDI_FRAMES_MAX
    , frames_offset := MIDI_FRAMES_MAX
    , fd_open := true
    , buf := [0xF8] }

/-- Concrete state: queue at capacity, drain incomplete (read cursor 3),
slot 3 still holding an undrained frame. -/
def c2x_reader : midi_reader_t :=
  { midi_reader_init 0 none with
      frames_len := MIDI_FRAMES_MAX
    , frames_offset := 3
    , frames := (List.replicate MIDI_FRAMES_MAX frameZero).set 3 ⟨[0x90, 1, 2]⟩ }

/-- Concrete state: queue fully drained below capacity (both cursors 1),
one byte 0xF8 available from the device. -/
def c7x_reader : midi_reader_t :=
  { midi_reader_set_fd (midi_reader_init 0 none) [0xF8] with
      frames_len := 1
    , frames_offset := 1
    , frames := (List.replicate MIDI_FRAMES_MAX frameZero).set 0 ⟨[0x90, 1, 2]⟩ }

/-- Concrete state: empty queue, a byte 0xF8 still in the refill window,
further bytes available from the device. -/
def c8x_reader : midi_reader_t :=
  { midi_reader_init 0 none with fd_open := true, buf := [0xF8], input := [1, 2, 3] }

/-- Concrete state: one finalized frame queued and not yet drained. -/
def c8w_reader : midi_reader_t :=
  { midi_reader_set_fd (midi_reader_init 0 none) [5] with
      frames_len := 1
    , frames_offset := 0
    , frames := (List.replicate MIDI_FRAMES_MAX frameZero).set 0 ⟨[0x90, 1, 2]⟩ }

/-- Concrete state: skip set {0xF8} and a 0xF8 byte arriving. -/
def c3x_reader : midi_reader_t :=
  midi_reader_set_fd (midi_reader_init 0 (some [0xF8])) [0xF8]

/-- Concrete state for the byte-range invariant: one well-ranged byte
available from the device. -/
def c9w_reader : midi_reader_t :=
  midi_reader_set_fd (midi_reader_init 0 none) [0xF8]

/-- Concrete state: two queued frames (one already drained), an
in-progress frame in slot 2, active running status and a buffered byte. -/
def c10w_reader : midi_reader_t :=
  { midi_reader_init 0 none with
      frames_len := 2
    , frames_offset := 1
    , frames := ((List.replicate MIDI_FRAMES_MAX frameZero).set 0 ⟨[0xF8]⟩).set 2 ⟨[0x90, 5]⟩
    , running := 0x90
    , buf := [7]
    , fd_open := true }

/-- The window reset moves only buf_pos (to 0, and only when the window
is empty); everything else is unchanged. -/
theorem window_reset_spec (r : midi_reader_t) :
    (window_reset r).buf = r.buf ∧ (window_reset r).input = r.input ∧
    (window_reset r).push_back = r.push_back ∧ core_eq (window_reset r) r ∧
    (r.buf = [] → (window_reset r).buf_pos = 0) := by
  unfold window_reset core_eq
  split <;> simp_all

/-- The refill step preserves the concatenation of the window with the
readable device bytes, the push-back slot, and the core fields. -/
theorem window_refill_spec (r : midi_reader_t) :
    (window_refill r).buf ++ (if (window_refill r).fd_open then (window_refill r).input else []) =
      r.buf ++ (if r.fd_open then r.input else []) ∧
    (window_refill r).push_back = r.push_back ∧
    core_eq (window_refill r) r := by
  by_cases hc : r.buf_pos + r.buf.length < MIDI_READER_BUF_MAX ∧ r.fd_open = true
  · unfold window_refill
    rw [if_pos hc]
    refine ⟨?_, rfl, ?_⟩
    · dsimp only
      rw [hc.2]
      simp [List.append_assoc, List.take_append_drop]
    · unfold core_eq
      exact ⟨rfl, rfl, rfl, rfl, rfl, rfl, rfl⟩
  · unfold window_refill
    rw [if_neg hc]
    refine ⟨rfl, rfl, ?_⟩
    unfold core_eq
    exact ⟨rfl, rfl, rfl, rfl, rfl, rfl, rfl⟩

/-- An empty window after reset and refill means every byte source but
the push-back slot is exhausted. -/
theorem window_refill_buf_nil (r : midi_reader_t)
    (h : (window_refill (window_reset r)).buf = []) :
    r.buf = [] ∧ (r.fd_open = true → r.input = []) := by
  obtain ⟨ha1, ha2, ha3, ha4, ha5⟩ := window_reset_spec r
  unfold window_refill at h
  split_ifs at h with hc
  · have h1 : (window_reset r).buf = [] := (List.append_eq_nil.mp h).1
    have h2 := (List.append_eq_nil.mp h).2
    have hbuf : r.buf = [] := by rw [← ha1]; exact h1
    refine ⟨hbuf, ?_⟩
    intro hfo
    have hp0 : (window_reset r).buf_pos = 0 := ha5 hbuf
    rcases List.take_eq_nil_iff.mp h2 with h' | h'
    · exfalso
      rw [hp0, h1] at h'
      simp [MIDI_READER_BUF_MAX] at h'
    · rw [← ha2]
      exact h'
  · have hbuf : r.buf = [] := by rw [← ha1]; exact h
    refine ⟨hbuf, ?_⟩
    intro hfo
    exfalso
    apply hc
    constructor
    · rw [ha5 hbuf, ha1, hbuf]
      decide
    · rw [ha4.2.1]
      exact hfo

/-- Taking from an empty window yields -1 and changes nothing. -/
theorem window_take_nil (r2 : midi_reader_t) (h : r2.buf = []) :
    window_take r2 = (-1, r2) := by
  unfold window_take
  rw [h]

/-- Taking from a nonempty window yields its first byte and advances the
offset. -/
theorem window_take_cons (r2 : midi_reader_t) (b : Nat) (rest : List Nat)
    (h : r2.buf = b :: rest) :
    window_take r2 = ((b : Int), { r2 with buf := rest, buf_pos := r2.buf_pos + 1 }) := by
  unfold window_take
  rw [h]

/-- Obtaining a byte when one is pending: the first pending byte comes
back, the pending list loses its head, the push-back slot ends empty and
the core fields are untouched. -/
theorem get_byte_cons (r : midi_reader_t) (b : Nat) (bs : List Nat)
    (h : pending r = b :: bs) :
    (midi_reader_get_byte r).1 = (b : Int) ∧
    pending (midi_reader_get_byte r).2 = bs ∧
    (midi_reader_get_byte r).2.push_back ≤ -1 ∧
    core_eq (midi_reader_get_byte r).2 r := by
  unfold midi_reader_get_byte
  by_cases hpb : -1 < r.push_back
  · rw [if_pos hpb]
    unfold pending pbList at h
    rw [if_pos hpb] at h
    simp only [List.cons_append] at h
    injection h with h1 h2
    have hb : r.push_back = (b : Int) := by omega
    refine ⟨hb, ?_, le_refl (-1), ?_⟩
    · unfold pending pbList
      simpa using h2
    · unfold core_eq
      exact ⟨rfl, rfl, rfl, rfl, rfl, rfl, rfl⟩
  · rw [if_neg hpb]
    have hw : r.buf ++ (if r.fd_open then r.input else []) = b :: bs := by
      unfold pending pbList at h
      rw [if_neg hpb] at h
      simpa using h
    obtain ⟨ha1, ha2, ha3, ha4, ha5⟩ := window_reset_spec r
    obtain ⟨hb1, hb2, hb3⟩ := window_refill_spec (window_reset r)
    have hfo : (window_refill (window_reset r)).fd_open = r.fd_open :=
      hb3.2.1.trans ha4.2.1
    have hpb2 : (window_refill (window_reset r)).push_back = r.push_back :=
      hb2.trans ha3
    have hwin : (window_refill (window_reset r)).buf ++
        (if (window_refill (window_reset r)).fd_open then (window_refill (window_reset r)).input else []) =
        b :: bs := by
      rw [hb1]
      simp only [ha1, ha2, ha4.2.1]
      exact hw
    cases hbuf : (window_refill (window_reset r)).buf with
    | nil =>
      exfalso
      obtain ⟨hn1, hn2⟩ := window_refill_buf_nil r hbuf
      rw [hn1] at hw
      cases hof : r.fd_open with
      | false => rw [hof] at hw; simp at hw
      | true => rw [hof, hn2 hof] at hw; simp at hw
    | cons c rest =>
      rw [window_take_cons _ c rest hbuf]
      rw [hbuf] at hwin
      simp only [List.cons_append] at hwin
      injection hwin with hw1 hw2
      refine ⟨by rw [hw1], ?_, ?_, ?_⟩
      · unfold pending pbList
        dsimp only
        rw [hpb2, if_neg hpb]
        simpa using hw2
      · dsimp only
        rw [hpb2]
        omega
      · obtain ⟨hc1, hc2, hc3, hc4, hc5, hc6, hc7⟩ := hb3
        obtain ⟨hd1, hd2, hd3, hd4, hd5, hd6, hd7⟩ := ha4
        unfold core_eq
        exact ⟨hc1.trans hd1, hc2.trans hd2, hc3.trans hd3, hc4.trans hd4,
               hc5.trans hd5, hc6.trans hd6, hc7.trans hd7⟩

/-- Obtaining a byte with nothing pending: -1 comes back, nothing turns
pending and the core fields are untouched. -/
theorem get_byte_nil (r : midi_reader_t) (h : pending r = []) :
    (midi_reader_get_byte r).1 = -1 ∧
    pending (midi_reader_get_byte r).2 = [] ∧
    core_eq (midi_reader_get_byte r).2 r := by
  unfold midi_reader_get_byte
  have hpb : ¬ (-1 < r.push_back) := by
    intro hlt
    unfold pending pbList at h
    rw [if_pos hlt] at h
    simp at h
  rw [if_neg hpb]
  have hw : r.buf ++ (if r.fd_open then r.input else []) = [] := by
    unfold pending pbList at h
    rw [if_neg hpb] at h
    simpa using h
  obtain ⟨ha1, ha2, ha3, ha4, ha5⟩ := window_reset_spec r
  obtain ⟨hb1, hb2, hb3⟩ := window_refill_spec (window_reset r)
  have hpb2 : (window_refill (window_reset r)).push_back = r.push_back :=
    hb2.trans ha3
  have hwin : (window_refill (window_reset r)).buf ++
      (if (window_refill (window_reset r)).fd_open then (window_refill (window_reset r)).input else []) =
      [] := by
    rw [hb1]
    simp only [ha1, ha2, ha4.2.1]
    exact hw
  have hbuf : (window_refill (window_reset r)).buf = [] :=
    (List.append_eq_nil.mp hwin).1
  rw [window_take_nil _ hbuf]
  refine ⟨rfl, ?_, ?_⟩
  · unfold pending pbList
    rw [hpb2, if_neg hpb, hbuf]
    simpa using (List.append_eq_nil.mp hwin).2
  · obtain ⟨hc1, hc2, hc3, hc4, hc5, hc6, hc7⟩ := hb3
    obtain ⟨hd1, hd2, hd3, hd4, hd5, hd6, hd7⟩ := ha4
    unfold core_eq
    exact ⟨hc1.trans hd1, hc2.trans hd2, hc3.trans hd3, hc4.trans hd4,
           hc5.trans hd5, hc6.trans hd6, hc7.trans hd7⟩

/-- The copy loop of the expansion equals, pair by pair, prefixing the
status byte to every consecutive data-byte pair. -/
theorem expand_pairs_eq_flatten (s : Nat) :
    ∀ l, expand_pairs s l = ((pairs_of l).map (fun p => s :: p)).flatten
  | [] => rfl
  | [_] => rfl
  | d1 :: d2 :: rest => by
    show s :: d1 :: d2 :: expand_pairs s rest = _
    rw [expand_pairs_eq_flatten s rest]
    rfl

/-- Length of the expansion-loop output. -/
theorem expand_pairs_length (s : Nat) :
    ∀ l, (expand_pairs s l).length = 3 * (l.length / 2)
  | [] => rfl
  | [_] => by simp [expand_pairs]
  | d1 :: d2 :: rest => by
    show (s :: d1 :: d2 :: expand_pairs s rest).length = _
    simp only [List.length_cons, expand_pairs_length s rest]
    omega

/-- C6: a compact running-status channel-voice frame (status in
0x80..0xEF, length 1 + 2N with 1 ≤ N and N ≠ 1) is rewritten in place
into the concatenation of N explicit 3-byte sub-messages (the status
byte followed by each consecutive data-byte pair, total length 3N) when
that fits MIDI_FRAME_MAX; when it would overflow, the operation reports
false and leaves the frame bytes and length unchanged. -/
theorem expand_running_correct (s : Nat) (ds : List Nat) (N : Nat)
    (hs1 : 0x80 ≤ s) (hs2 : s ≤ 0xEF) (hds : ds.length = 2 * N)
    (hN1 : 1 ≤ N) (hN2 : N ≠ 1) :
    (3 * N ≤ MIDI_FRAME_MAX →
      midi_frame_expand_running ⟨s :: ds⟩ =
        (true, ⟨((pairs_of ds).map (fun p => s :: p)).flatten⟩) ∧
      (((pairs_of ds).map (fun p => s :: p)).flatten).length = 3 * N) ∧
    (MIDI_FRAME_MAX < 3 * N →
      midi_frame_expand_running ⟨s :: ds⟩ = (false, ⟨s :: ds⟩)) := by
  have hlen : (⟨s :: ds⟩ : midi_frame_t).len = 2 * N + 1 := by
    simp [midi_frame_t.len, hds]
  have hb0 : (⟨s :: ds⟩ : midi_frame_t).byte0 = s := rfl
  constructor
  · intro hfit
    unfold midi_frame_expand_running
    rw [hlen, hb0]
    simp only [MIDI_FRAME_MAX] at hfit ⊢
    split_ifs with h1 h2 h3
    · exfalso; omega
    · exfalso; omega
    · exfalso; omega
    · refine ⟨?_, ?_⟩
      · show (true, (⟨expand_pairs s ds⟩ : midi_frame_t)) = _
        rw [expand_pairs_eq_flatten]
      · rw [← expand_pairs_eq_flatten, expand_pairs_length, hds]
        omega
  · intro hover
    unfold midi_frame_expand_running
    rw [hlen, hb0]
    simp only [MIDI_FRAME_MAX] at hover ⊢
    split_ifs with h1 h2 h3
    · exfalso; omega
    · rfl
    · rfl
    · exfalso; omega

/-- Witness for C6 at a concrete input: status 0x90 with the data pairs
(1,2) and (3,4) expands into two explicit note-on messages. -/
theorem expand_running_correct_witness :
    midi_frame_expand_running ⟨[0x90, 1, 2, 3, 4]⟩ =
      (true, ⟨((pairs_of [1, 2, 3, 4]).map (fun p => 0x90 :: p)).flatten⟩) :=
  ((expand_running_correct 0x90 [1, 2, 3, 4] 2 (by decide) (by decide) (by decide)
      (by decide) (by decide)).1 (by decide)).1

/-- C10: clearing the queue while 0 < len < MIDI_FRAMES_MAX zeroes both
cursors, copies the in-progress frame from the slot at the write cursor
into slot 0, leaves every other slot in place, and does not touch the
running status, refill window, device stream or push-back slot. -/
theorem clear_queue_preserves (r : midi_reader_t)
    (h1 : 0 < r.frames_len) (h2 : r.frames_len < MIDI_FRAMES_MAX)
    (hfl : r.frames.length = MIDI_FRAMES_MAX) :
    (midi_reader_clear_queue r).frames_len = 0 ∧
    (midi_reader_clear_queue r).frames_offset = 0 ∧
    (midi_reader_clear_queue r).frames.getD 0 frameZero =
      r.frames.getD r.frames_len frameZero ∧
    (∀ i, 0 < i →
      (midi_reader_clear_queue r).frames.getD i frameZero = r.frames.getD i frameZero) ∧
    (midi_reader_clear_queue r).running = r.running ∧
    (midi_reader_clear_queue r).buf = r.buf ∧
    (midi_reader_clear_queue r).buf_pos = r.buf_pos ∧
    (midi_reader_clear_queue r).input = r.input ∧
    (midi_reader_clear_queue r).push_back = r.push_back := by
  unfold midi_reader_clear_queue
  rw [if_pos h1]
  refine ⟨rfl, rfl, ?_, ?_, rfl, rfl, rfl, rfl, rfl⟩
  · simp only [List.getD_eq_getElem?_getD]
    rw [List.getElem?_set_self (by omega)]
    simp
  · intro i hi
    simp only [List.getD_eq_getElem?_getD]
    rw [List.getElem?_set_ne (by omega)]

/-- Witness for C10 at a concrete state: the partially decoded frame in
slot 2 moves to slot 0 and the decoder state survives the clear. -/
theorem clear_queue_preserves_witness :
    (midi_reader_clear_queue c10w_reader).frames.getD 0 frameZero =
      c10w_reader.frames.getD c10w_reader.frames_len frameZero ∧
    (midi_reader_clear_queue c10w_reader).running = c10w_reader.running :=
  ⟨(clear_queue_preserves c10w_reader (by decide) (by decide) (by simp [c10w_reader, midi_reader_init])).2.2.1,
   (clear_queue_preserves c10w_reader (by decide) (by decide) (by simp [c10w_reader, midi_reader_init])).2.2.2.2.1⟩

/-- C3 (code bug): with skip set {0xF8}, pushing the completing byte of
a skip-listed frame discards and resets the frame but returns
MIDIF_NEXT, not the documented distinct outcome MIDIF_SKIPPED. -/
theorem skipped_frame_returns_next :
    (midi_frame_push c3x_reader frameZero).1 = MIDIF_NEXT ∧
    (midi_frame_push c3x_reader frameZero).2.2 = frameZero ∧
    MIDIF_NEXT ≠ MIDIF_SKIPPED := by
  decide

/-- With no skip set and expansion disabled the post-processor returns a
completed frame unchanged. -/
theorem process_id (r : midi_reader_t) (mf : midi_frame_t)
    (hskip : r.to_skip = none) (hexp : r.flags &&& MIDIR_EXPAND = 0) :
    midi_frame_process r mf = (MIDIF_COMPLETE, mf) := by
  unfold midi_frame_process
  rw [hskip]
  simp [hexp]

/-- A reader with an empty push-back slot draws pending bytes from the
window and the device only. -/
theorem pending_no_pb (r : midi_reader_t) (h : r.push_back ≤ -1) :
    pending r = r.buf ++ (if r.fd_open then r.input else []) := by
  unfold pending pbList
  rw [if_neg (by omega)]
  rfl

/-- Storing a byte in the push-back slot prepends it to the pending
bytes. -/
theorem pending_push_back (r : midi_reader_t) (b : Nat) :
    pending { r with push_back := (b : Int), running := 0 } =
      b :: (r.buf ++ (if r.fd_open then r.input else [])) := by
  unfold pending pbList
  dsimp only
  rw [if_pos (by omega : (-1 : Int) < (b : Int))]
  rfl

/-- The append tail of a push with no skip set and expansion disabled:
every outcome other than an error is NEXT or COMPLETE, conserves the
appended frame bytes plus pending bytes and keeps the configuration. -/
theorem push_append_step (r2 : midi_reader_t) (mf : midi_frame_t) (bn : Nat) (bs : List Nat)
    (st : midi_frame_state_t) (r' : midi_reader_t) (mf' : midi_frame_t)
    (hts : r2.to_skip = none) (hfl : r2.flags &&& MIDIR_EXPAND = 0)
    (hpend2 : pending r2 = bs)
    (hp : midi_frame_push_append r2 mf bn = (st, r', mf')) :
    (st = MIDIF_NEXT ∨ st = MIDIF_COMPLETE →
      mf'.data ++ pending r' = mf.data ++ bn :: bs) ∧
    st ≠ MIDIF_NODATA ∧
    r'.to_skip = none ∧ r'.flags &&& MIDIR_EXPAND = 0 := by
  unfold midi_frame_push_append at hp
  have hnext : (MIDIF_NEXT, r2, (⟨mf.data ++ [bn]⟩ : midi_frame_t)) = (st, r', mf') →
      (st = MIDIF_NEXT ∨ st = MIDIF_COMPLETE →
        mf'.data ++ pending r' = mf.data ++ bn :: bs) ∧
      st ≠ MIDIF_NODATA ∧
      r'.to_skip = none ∧ r'.flags &&& MIDIR_EXPAND = 0 := by
    intro hq
    injection hq with q1 hq2
    injection hq2 with q2 q3
    subst q1 q2 q3
    refine ⟨?_, by simp, hts, hfl⟩
    intro _
    show (mf.data ++ [bn]) ++ pending r2 = mf.data ++ bn :: bs
    rw [hpend2, List.append_assoc, List.singleton_append]
  have hcomp : ((midi_frame_process r2 ⟨mf.data ++ [bn]⟩).1, r2,
        (midi_frame_process r2 ⟨mf.data ++ [bn]⟩).2) = (st, r', mf') →
      (st = MIDIF_NEXT ∨ st = MIDIF_COMPLETE →
        mf'.data ++ pending r' = mf.data ++ bn :: bs) ∧
      st ≠ MIDIF_NODATA ∧
      r'.to_skip = none ∧ r'.flags &&& MIDIR_EXPAND = 0 := by
    rw [process_id r2 _ hts hfl]
    intro hq
    injection hq with q1 hq2
    injection hq2 with q2 q3
    subst q1 q2 q3
    refine ⟨?_, by simp, hts, hfl⟩
    intro _
    show (mf.data ++ [bn]) ++ pending r2 = mf.data ++ bn :: bs
    rw [hpend2, List.append_assoc, List.singleton_append]
  dsimp only at hp
  by_cases hL1 : midi_frame_len (⟨mf.data ++ [bn]⟩ : midi_frame_t).byte0 = -1
  · rw [if_pos hL1] at hp
    injection hp with q1 hq2
    injection hq2 with q2 q3
    subst q1 q2 q3
    exact ⟨by simp, by simp, hts, hfl⟩
  · rw [if_neg hL1] at hp
    by_cases hsys : midi_frame_len (⟨mf.data ++ [bn]⟩ : midi_frame_t).byte0 = -0xF0 ∧
        1 < (⟨mf.data ++ [bn]⟩ : midi_frame_t).len
    · rw [if_pos hsys] at hp
      by_cases hf7 : bn = 0xF7
      · rw [if_pos hf7] at hp
        exact hcomp hp
      · rw [if_neg hf7] at hp
        exact hnext hp
    · rw [if_neg hsys] at hp
      by_cases hfin : r2.running = 0 ∧ midi_frame_len (⟨mf.data ++ [bn]⟩ : midi_frame_t).byte0 =
          ((⟨mf.data ++ [bn]⟩ : midi_frame_t).len : Int)
      · rw [if_pos hfin] at hp
        exact hcomp hp
      · rw [if_neg hfin] at hp
        exact hnext hp

/-- One push step with no skip set and expansion disabled: a NEXT or
COMPLETE outcome conserves the multiset-free concatenation of frame
bytes and pending bytes; NODATA happens only with nothing pending and
changes nothing; the configuration survives. -/
theorem push_step (r : midi_reader_t) (mf : midi_frame_t) (st : midi_frame_state_t)
    (r' : midi_reader_t) (mf' : midi_frame_t)
    (hskip : r.to_skip = none) (hexp : r.flags &&& MIDIR_EXPAND = 0)
    (hp : midi_frame_push r mf = (st, r', mf')) :
    (st = MIDIF_NEXT ∨ st = MIDIF_COMPLETE →
      mf'.data ++ pending r' = mf.data ++ pending r) ∧
    (st = MIDIF_NODATA → pending r = [] ∧ pending r' = [] ∧ mf' = mf) ∧
    r'.to_skip = none ∧ r'.flags &&& MIDIR_EXPAND = 0 := by
  by_cases hmax : mf.len = MIDI_FRAME_MAX
  · unfold midi_frame_push at hp
    rw [if_pos hmax] at hp
    injection hp with h1 hp2
    injection hp2 with h2 h3
    subst h1 h2 h3
    exact ⟨by simp, by simp, hskip, hexp⟩
  · cases hpend : pending r with
    | nil =>
      obtain ⟨hg1, hg2, hg3⟩ := get_byte_nil r hpend
      unfold midi_frame_push at hp
      rw [if_neg hmax] at hp
      simp only [hg1] at hp
      rw [if_pos (show (-1 : Int) < 0 by norm_num)] at hp
      injection hp with h1 hp2
      injection hp2 with h2 h3
      subst h1 h2 h3
      refine ⟨by simp, fun _ => ⟨rfl, hg2, rfl⟩, ?_, ?_⟩
      · exact hg3.2.2.2.2.2.2.trans hskip
      · rw [hg3.1]; exact hexp
    | cons b bs =>
      obtain ⟨hg1, hg2, hg3, hg4⟩ := get_byte_cons r b bs hpend
      have hts2 : (midi_reader_get_byte r).2.to_skip = none := hg4.2.2.2.2.2.2.trans hskip
      have hfl2 : (midi_reader_get_byte r).2.flags &&& MIDIR_EXPAND = 0 := by
        rw [hg4.1]; exact hexp
      have hwb : (midi_reader_get_byte r).2.buf ++
          (if (midi_reader_get_byte r).2.fd_open then (midi_reader_get_byte r).2.input else []) = bs := by
        rw [← pending_no_pb (midi_reader_get_byte r).2 hg3]
        exact hg2
      unfold midi_frame_push at hp
      rw [if_neg hmax] at hp
      simp only [hg1] at hp
      rw [if_neg (show ¬ ((b : Int) < 0) by omega)] at hp
      by_cases hb255 : (0xFF : Int) < (b : Int)
      · rw [if_pos hb255] at hp
        injection hp with h1 hp2
        injection hp2 with h2 h3
        subst h1 h2 h3
        exact ⟨by simp, by simp, hts2, hfl2⟩
      · rw [if_neg hb255] at hp
        simp only [Int.toNat_natCast] at hp
        by_cases hrun : (midi_reader_get_byte r).2.running ≠ 0 ∧ b &&& 0x80 ≠ 0
        · rw [if_pos hrun] at hp
          by_cases hpar : mf.len = 0 ∨ (mf.len - 1) % 2 = 1
          · rw [if_pos hpar] at hp
            injection hp with h1 hp2
            injection hp2 with h2 h3
            subst h1 h2 h3
            exact ⟨by simp, by simp, hts2, hfl2⟩
          · rw [if_neg hpar] at hp
            rw [process_id _ _ (by exact hts2) (by exact hfl2)] at hp
            injection hp with h1 hp2
            injection hp2 with h2 h3
            subst h1 h2 h3
            refine ⟨?_, by simp, hts2, hfl2⟩
            intro _
            rw [pending_push_back, hwb]
        · rw [if_neg hrun] at hp
          by_cases hlen0 : mf.len = 0
          · rw [if_pos hlen0] at hp
            by_cases hbr : 0x80 ≤ b ∧ b ≤ 0xEF
            · rw [if_pos hbr] at hp
              obtain ⟨k1, k2, k3, k4⟩ :=
                push_append_step _ mf b bs st r' mf' (by exact hts2) (by exact hfl2) (by exact hg2) hp
              exact ⟨k1, fun h => absurd h k2, k3, k4⟩
            · rw [if_neg hbr] at hp
              obtain ⟨k1, k2, k3, k4⟩ :=
                push_append_step _ mf b bs st r' mf' (by exact hts2) (by exact hfl2) (by exact hg2) hp
              exact ⟨k1, fun h => absurd h k2, k3, k4⟩
          · rw [if_neg hlen0] at hp
            obtain ⟨k1, k2, k3, k4⟩ :=
              push_append_step _ mf b bs st r' mf' hts2 hfl2 hg2 hp
            exact ⟨k1, fun h => absurd h k2, k3, k4⟩

/-- Frame bytes distribute over appending one frame. -/
theorem frames_bytes_snoc (a : List midi_frame_t) (f : midi_frame_t) :
    frames_bytes (a ++ [f]) = frames_bytes a ++ f.data := by
  simp [frames_bytes]

/-- Invariant of the drain loop with no skip set and expansion disabled:
a successful drain accounts for every byte, in order: collected frames,
then the trailing partial frame, then nothing (all pending consumed). -/
theorem drain_inv (fuel : Nat) : ∀ (r : midi_reader_t) (mf : midi_frame_t)
    (acc frames : List midi_frame_t) (rest : midi_frame_t),
    r.to_skip = none → r.flags &&& MIDIR_EXPAND = 0 →
    drainPush fuel r mf acc = some (frames, rest) →
    frames_bytes frames ++ rest.data = frames_bytes acc ++ mf.data ++ pending r := by
  induction fuel with
  | zero =>
    intro r mf acc frames rest _ _ h
    exact absurd h (by simp [drainPush])
  | succ n ih =>
    intro r mf acc frames rest hskip hexp h
    unfold drainPush at h
    rcases hp : midi_frame_push r mf with ⟨st, r1, mf1⟩
    rw [hp] at h
    obtain ⟨k1, k2, k3, k4⟩ := push_step r mf st r1 mf1 hskip hexp hp
    cases st with
    | MIDIF_IOERROR => simp at h
    | MIDIF_ERROR => simp at h
    | MIDIF_SKIPPED => simp at h
    | MIDIF_NODATA =>
      dsimp only at h
      injection h with h1
      injection h1 with h2 h3
      obtain ⟨kb1, kb2, kb3⟩ := k2 rfl
      rw [← h2, ← h3, kb3, kb1]
      simp
    | MIDIF_NEXT =>
      dsimp only at h
      rw [ih r1 mf1 acc frames rest k3 k4 h, List.append_assoc, List.append_assoc,
        k1 (Or.inl rfl)]
    | MIDIF_COMPLETE =>
      dsimp only at h
      have hiv := ih r1 frameZero (acc ++ [mf1]) frames rest k3 k4 h
      rw [hiv, frames_bytes_snoc]
      have hk := k1 (Or.inr rfl)
      simp only [frameZero, List.append_nil, List.append_assoc]
      rw [hk]

/-- C4: with expansion disabled and an empty skip set, a decode that
ends cleanly (no error outcome, every byte consumed, no trailing
partial frame) reproduces the input byte stream by concatenating the
decoded frames in FIFO order. -/
theorem decode_roundtrip (input : List Nat) (fuel : Nat)
    (frames : List midi_frame_t) (rest : midi_frame_t)
    (h : midi_decode input fuel = some (frames, rest)) (hrest : rest.data = []) :
    frames_bytes frames = input := by
  unfold midi_decode at h
  have hinv := drain_inv fuel (midi_reader_set_fd (midi_reader_init 0 none) input)
    frameZero [] frames rest rfl
    (by simp [midi_reader_set_fd, midi_reader_init, MIDIR_EXPAND]) h
  rw [hrest, List.append_nil] at hinv
  rw [hinv]
  simp [frames_bytes, frameZero, pending, pbList, midi_reader_init, midi_reader_set_fd]

/-- Witness for C4 at a concrete input: the single real-time byte 0xF8
decodes to one frame whose bytes reproduce the stream. -/
theorem decode_roundtrip_witness : frames_bytes [⟨[0xF8]⟩] = [0xF8] :=
  decode_roundtrip [0xF8] 3 [⟨[0xF8]⟩] frameZero (by decide) rfl

/-- Unfolding the drain loop once. -/
theorem drainPush_succ (fuel : Nat) (r : midi_reader_t) (mf : midi_frame_t)
    (acc : List midi_frame_t) :
    drainPush (fuel + 1) r mf acc =
      match midi_frame_push r mf with
      | (MIDIF_NODATA, _, mf1) => some (acc, mf1)
      | (MIDIF_NEXT, r1, mf1) => drainPush fuel r1 mf1 acc
      | (MIDIF_COMPLETE, r1, mf1) => drainPush fuel r1 frameZero (acc ++ [mf1])
      | _ => none := rfl

/-- Drain step on a NEXT outcome. -/
theorem drainPush_next (fuel : Nat) (r : midi_reader_t) (mf : midi_frame_t)
    (acc : List midi_frame_t) (r1 : midi_reader_t) (mf1 : midi_frame_t)
    (h : midi_frame_push r mf = (MIDIF_NEXT, r1, mf1)) :
    drainPush (fuel + 1) r mf acc = drainPush fuel r1 mf1 acc := by
  rw [drainPush_succ, h]

/-- Drain step on a COMPLETE outcome. -/
theorem drainPush_complete (fuel : Nat) (r : midi_reader_t) (mf : midi_frame_t)
    (acc : List midi_frame_t) (r1 : midi_reader_t) (mf1 : midi_frame_t)
    (h : midi_frame_push r mf = (MIDIF_COMPLETE, r1, mf1)) :
    drainPush (fuel + 1) r mf acc = drainPush fuel r1 frameZero (acc ++ [mf1]) := by
  rw [drainPush_succ, h]

/-- Drain step on a NODATA outcome. -/
theorem drainPush_nodata (fuel : Nat) (r : midi_reader_t) (mf : midi_frame_t)
    (acc : List midi_frame_t) (r1 : midi_reader_t) (mf1 : midi_frame_t)
    (h : midi_frame_push r mf = (MIDIF_NODATA, r1, mf1)) :
    drainPush (fuel + 1) r mf acc = some (acc, mf1) := by
  rw [drainPush_succ, h]

/-- Appending a byte does not change the leading status byte of a
nonempty frame. -/
theorem byte0_append (mf : midi_frame_t) (b : Nat) (h : 1 ≤ mf.len) :
    (⟨mf.data ++ [b]⟩ : midi_frame_t).byte0 = mf.byte0 := by
  unfold midi_frame_t.byte0
  cases hd : mf.data with
  | nil =>
    exfalso
    unfold midi_frame_t.len at h
    rw [hd] at h
    simp at h
  | cons c tl =>
    rfl

/-- Pushing with nothing pending reports NODATA and leaves the frame
alone. -/
theorem push_nodata (r : midi_reader_t) (mf : midi_frame_t)
    (hpend : pending r = []) (hlen : mf.len ≠ MIDI_FRAME_MAX) :
    midi_frame_push r mf = (MIDIF_NODATA, (midi_reader_get_byte r).2, mf) := by
  obtain ⟨hg1, hg2, hg3⟩ := get_byte_nil r hpend
  unfold midi_frame_push
  rw [if_neg hlen]
  dsimp only
  rw [hg1]
  rw [if_pos (by norm_num : (-1 : Int) < 0)]

/-- Pushing a non-terminator byte into an in-progress system-exclusive
frame with running status clear appends the byte and continues. -/
theorem push_sysex_data (r : midi_reader_t) (mf : midi_frame_t) (d : Nat) (bs : List Nat)
    (hpend : pending r = d :: bs) (hd : d ≤ 0xFF) (hd7 : d ≠ 0xF7)
    (hrun : r.running = 0) (hb0 : mf.byte0 = 0xF0) (h1 : 1 ≤ mf.len)
    (hlt : mf.len < MIDI_FRAME_MAX) :
    midi_frame_push r mf = (MIDIF_NEXT, (midi_reader_get_byte r).2, ⟨mf.data ++ [d]⟩) ∧
    pending (midi_reader_get_byte r).2 = bs ∧
    (midi_reader_get_byte r).2.running = 0 ∧
    (midi_reader_get_byte r).2.to_skip = r.to_skip ∧
    (midi_reader_get_byte r).2.flags = r.flags := by
  obtain ⟨hg1, hg2, hg3, hg4⟩ := get_byte_cons r d bs hpend
  have hrun1 : (midi_reader_get_byte r).2.running = 0 := hg4.2.2.1.trans hrun
  refine ⟨?_, hg2, hrun1, hg4.2.2.2.2.2.2, hg4.1⟩
  unfold midi_frame_push
  rw [if_neg (by omega : ¬ mf.len = MIDI_FRAME_MAX)]
  dsimp only
  rw [hg1]
  rw [if_neg (by omega : ¬ ((d : Int) < 0))]
  rw [if_neg (by omega : ¬ ((0xFF : Int) < (d : Int)))]
  simp only [Int.toNat_natCast]
  rw [if_neg (by rw [hrun1]; simp)]
  rw [if_neg (by omega : ¬ mf.len = 0)]
  unfold midi_frame_push_append
  dsimp only
  have hb0a : (⟨mf.data ++ [d]⟩ : midi_frame_t).byte0 = 0xF0 := (byte0_append mf d h1).trans hb0
  rw [hb0a]
  have hlen2 : 1 < (⟨mf.data ++ [d]⟩ : midi_frame_t).len := by
    have hl : (⟨mf.data ++ [d]⟩ : midi_frame_t).len = mf.len + 1 := by
      simp [midi_frame_t.len]
    omega
  rw [if_neg (by decide : ¬ ((midi_frame_len 0xF0 : Int) = -1))]
  rw [if_pos (And.intro (by decide) hlen2)]
  rw [if_neg hd7]

/-- Pushing the 0xF7 terminator into an in-progress system-exclusive
frame with running status clear completes it (no skip set, expansion
disabled). -/
theorem push_sysex_end (r : midi_reader_t) (mf : midi_frame_t) (bs : List Nat)
    (hpend : pending r = 0xF7 :: bs)
    (hrun : r.running = 0) (hb0 : mf.byte0 = 0xF0) (h1 : 1 ≤ mf.len)
    (hlt : mf.len < MIDI_FRAME_MAX)
    (hskip : r.to_skip = none) (hexp : r.flags &&& MIDIR_EXPAND = 0) :
    midi_frame_push r mf = (MIDIF_COMPLETE, (midi_reader_get_byte r).2, ⟨mf.data ++ [0xF7]⟩) ∧
    pending (midi_reader_get_byte r).2 = bs ∧
    (midi_reader_get_byte r).2.to_skip = none ∧
    (midi_reader_get_byte r).2.flags &&& MIDIR_EXPAND = 0 := by
  obtain ⟨hg1, hg2, hg3, hg4⟩ := get_byte_cons r 0xF7 bs hpend
  have hrun1 : (midi_reader_get_byte r).2.running = 0 := hg4.2.2.1.trans hrun
  have hts : (midi_reader_get_byte r).2.to_skip = none := hg4.2.2.2.2.2.2.trans hskip
  have hfl : (midi_reader_get_byte r).2.flags &&& MIDIR_EXPAND = 0 := by
    rw [hg4.1]; exact hexp
  refine ⟨?_, hg2, hts, hfl⟩
  unfold midi_frame_push
  rw [if_neg (by omega : ¬ mf.len = MIDI_FRAME_MAX)]
  dsimp only
  rw [hg1]
  rw [if_neg (by omega : ¬ (((0xF7 : Nat) : Int) < 0))]
  rw [if_neg (by omega : ¬ ((0xFF : Int) < ((0xF7 : Nat) : Int)))]
  simp only [Int.toNat_natCast]
  rw [if_neg (by rw [hrun1]; simp)]
  rw [if_neg (by omega : ¬ mf.len = 0)]
  unfold midi_frame_push_append
  dsimp only
  have hb0a : (⟨mf.data ++ [0xF7]⟩ : midi_frame_t).byte0 = 0xF0 :=
    (byte0_append mf 0xF7 h1).trans hb0
  rw [hb0a]
  have hlen2 : 1 < (⟨mf.data ++ [0xF7]⟩ : midi_frame_t).len := by
    have hl : (⟨mf.data ++ [0xF7]⟩ : midi_frame_t).len = mf.len + 1 := by
      simp [midi_frame_t.len]
    omega
  rw [if_neg (by decide : ¬ ((midi_frame_len 0xF0 : Int) = -1))]
  rw [if_pos (And.intro (by decide) hlen2)]
  rw [if_pos rfl]
  rw [process_id _ _ hts hfl]

/-- Draining an in-progress system-exclusive frame: the data bytes are
appended one at a time, the final 0xF7 completes exactly one frame
holding every byte, and the loop ends on NODATA with an empty trailing
frame. -/
theorem sysex_drain (ds : List Nat) : ∀ (fuel : Nat) (r : midi_reader_t) (mf : midi_frame_t)
    (acc : List midi_frame_t),
    r.to_skip = none → r.flags &&& MIDIR_EXPAND = 0 → r.running = 0 →
    pending r = ds ++ [0xF7] → (∀ d ∈ ds, d ≤ 0xFF ∧ d ≠ 0xF7) →
    mf.byte0 = 0xF0 → 1 ≤ mf.len → mf.len + ds.length + 1 ≤ MIDI_FRAME_MAX →
    ds.length + 2 ≤ fuel →
    drainPush fuel r mf acc = some (acc ++ [⟨mf.data ++ (ds ++ [0xF7])⟩], frameZero) := by
  induction ds with
  | nil =>
    intro fuel r mf acc hskip hexp hrun hpend hds hb0 h1 hcap hfuel
    obtain ⟨f1, rfl⟩ : ∃ f1, fuel = f1 + 1 := ⟨fuel - 1, by omega⟩
    obtain ⟨f2, rfl⟩ : ∃ f2, f1 = f2 + 1 := ⟨f1 - 1, by omega⟩
    obtain ⟨he, hp2, hts, hfl⟩ :=
      push_sysex_end r mf [] (by simpa using hpend) hrun hb0 h1 (by omega) hskip hexp
    rw [drainPush_complete _ _ _ _ _ _ he]
    rw [drainPush_nodata _ _ _ _ _ _ (push_nodata _ frameZero hp2 (by decide))]
    simp
  | cons d ds ih =>
    intro fuel r mf acc hskip hexp hrun hpend hds hb0 h1 hcap hfuel
    obtain ⟨f1, rfl⟩ : ∃ f1, fuel = f1 + 1 := ⟨fuel - 1, by omega⟩
    have hd := hds d (by simp)
    obtain ⟨he, hp2, hrun2, hts2, hfl2⟩ :=
      push_sysex_data r mf d (ds ++ [0xF7]) (by simpa using hpend) hd.1 hd.2 hrun hb0 h1 (by omega)
    rw [drainPush_next _ _ _ _ _ _ he]
    have hlz : (⟨mf.data ++ [d]⟩ : midi_frame_t).len = mf.len + 1 := by
      simp [midi_frame_t.len]
    have hrec := ih f1 (midi_reader_get_byte r).2 ⟨mf.data ++ [d]⟩ acc
      (hts2.trans hskip) (by rw [hfl2]; exact hexp) hrun2 hp2
      (fun x hx => hds x (by simp [hx]))
      ((byte0_append mf d h1).trans hb0)
      (by omega)
      (by rw [hlz]; simp at hcap; omega)
      (by simp at hfuel; omega)
    rw [hrec]
    simp

/-- Pushing a leading 0xF0 into an empty frame with running status clear
clears running status (0xF0 is not a channel-voice byte) and waits for
more bytes. -/
theorem push_sysex_start (r : midi_reader_t) (bs : List Nat)
    (hpend : pending r = 0xF0 :: bs) (hrun : r.running = 0) :
    midi_frame_push r frameZero =
      (MIDIF_NEXT, { (midi_reader_get_byte r).2 with running := 0 }, ⟨[0xF0]⟩) ∧
    pending { (midi_reader_get_byte r).2 with running := 0 } = bs ∧
    { (midi_reader_get_byte r).2 with running := 0 }.to_skip = r.to_skip ∧
    { (midi_reader_get_byte r).2 with running := 0 }.flags = r.flags := by
  obtain ⟨hg1, hg2, hg3, hg4⟩ := get_byte_cons r 0xF0 bs hpend
  have hrun1 : (midi_reader_get_byte r).2.running = 0 := hg4.2.2.1.trans hrun
  refine ⟨?_, by exact hg2, by exact hg4.2.2.2.2.2.2, by exact hg4.1⟩
  unfold midi_frame_push
  rw [if_neg (by decide : ¬ frameZero.len = MIDI_FRAME_MAX)]
  dsimp only
  rw [hg1]
  rw [if_neg (by omega : ¬ (((0xF0 : Nat) : Int) < 0))]
  rw [if_neg (by omega : ¬ ((0xFF : Int) < ((0xF0 : Nat) : Int)))]
  simp only [Int.toNat_natCast]
  rw [if_neg (by rw [hrun1]; simp)]
  rw [if_pos (by decide : frameZero.len = 0)]
  rw [if_neg (by decide : ¬ ((0x80 : Nat) ≤ 0xF0 ∧ (0xF0 : Nat) ≤ 0xEF))]
  unfold midi_frame_push_append
  dsimp only
  have hb0a : (⟨frameZero.data ++ [0xF0]⟩ : midi_frame_t).byte0 = 0xF0 := rfl
  rw [hb0a]
  rw [if_neg (by decide : ¬ ((midi_frame_len 0xF0 : Int) = -1))]
  rw [if_neg ?hsys]
  case hsys =>
    rintro ⟨h1, h2⟩
    have : (⟨frameZero.data ++ [0xF0]⟩ : midi_frame_t).len = 1 := rfl
    omega
  rw [if_neg ?hfin]
  case hfin =>
    rintro ⟨h1, h2⟩
    have hl1 : ((⟨frameZero.data ++ [0xF0]⟩ : midi_frame_t).len : Int) = 1 := rfl
    rw [hl1] at h2
    exact absurd h2 (by decide)
  rfl

/-- C5: feeding 0xF0, d1, ..., dk, 0xF7 (k + 2 within frame capacity,
no di equal to 0xF7) to the decoder from an empty frame with no running
status yields exactly one completed frame, only on the final 0xF7, and
the frame carries all k + 2 bytes including the terminator. -/
theorem sysex_complete (ds : List Nat)
    (hds : ∀ d ∈ ds, d ≤ 0xFF ∧ d ≠ 0xF7)
    (hcap : ds.length + 2 ≤ MIDI_FRAME_MAX) :
    midi_decode (0xF0 :: (ds ++ [0xF7])) (ds.length + 3) =
      some ([⟨0xF0 :: (ds ++ [0xF7])⟩], frameZero) := by
  unfold midi_decode
  have hpend0 : pending (midi_reader_set_fd (midi_reader_init 0 none) (0xF0 :: (ds ++ [0xF7]))) =
      0xF0 :: (ds ++ [0xF7]) := by
    simp [pending, pbList, midi_reader_init, midi_reader_set_fd]
  obtain ⟨hstart, hp2, hts2, hfl2⟩ :=
    push_sysex_start (midi_reader_set_fd (midi_reader_init 0 none) (0xF0 :: (ds ++ [0xF7])))
      (ds ++ [0xF7]) hpend0 rfl
  rw [show ds.length + 3 = (ds.length + 2) + 1 by omega]
  rw [drainPush_next _ _ _ _ _ _ hstart]
  rw [sysex_drain ds (ds.length + 2) _ ⟨[0xF0]⟩ []
    (by rw [hts2]; rfl)
    (by rw [hfl2]; simp [midi_reader_set_fd, midi_reader_init, MIDIR_EXPAND])
    rfl hp2 hds rfl (by decide)
    (by have : (⟨[0xF0]⟩ : midi_frame_t).len = 1 := rfl
        omega)
    (le_refl _)]
  simp

/-- Witness for C5 at a concrete input: the system-exclusive message
0xF0 1 2 0xF7 decodes as one four-byte frame. -/
theorem sysex_complete_witness :
    midi_decode (0xF0 :: ([1, 2] ++ [0xF7])) 5 =
      some ([⟨0xF0 :: ([1, 2] ++ [0xF7])⟩], frameZero) :=
  sysex_complete [1, 2] (by decide) (by decide)

/-- The post-processor depends only on the skip set and the flags. -/
theorem process_congr (r1 r2 : midi_reader_t) (mf : midi_frame_t)
    (h1 : r1.to_skip = r2.to_skip) (h2 : r1.flags = r2.flags) :
    midi_frame_process r1 mf = midi_frame_process r2 mf := by
  unfold midi_frame_process
  rw [h1, h2]

/-- C1: with active running status, when the next pending byte has bit
7 set, a push clears running status, stores the byte in the push-back
slot, and: with an empty frame or an odd accumulated data-byte count it
reports MIDIF_ERROR and resets the frame; with a non-empty frame of
even data-byte count it finalizes the current frame through the
post-processor. -/
theorem push_running_finalize (r : midi_reader_t) (mf : midi_frame_t) (b : Nat) (bs : List Nat)
    (hpend : pending r = b :: bs) (hb : b ≤ 0xFF) (hbit : b &&& 0x80 ≠ 0)
    (hrun : r.running ≠ 0) (hlen : mf.len ≠ MIDI_FRAME_MAX) :
    (midi_frame_push r mf).2.1.running = 0 ∧
    (midi_frame_push r mf).2.1.push_back = (b : Int) ∧
    ((mf.len = 0 ∨ (mf.len - 1) % 2 = 1) →
      (midi_frame_push r mf).1 = MIDIF_ERROR ∧
      (midi_frame_push r mf).2.2 = midi_frame_reset mf) ∧
    (¬ (mf.len = 0 ∨ (mf.len - 1) % 2 = 1) →
      (midi_frame_push r mf).1 = (midi_frame_process r mf).1 ∧
      (midi_frame_push r mf).2.2 = (midi_frame_process r mf).2) := by
  obtain ⟨hg1, hg2, hg3, hg4⟩ := get_byte_cons r b bs hpend
  have hrcond : (midi_reader_get_byte r).2.running ≠ 0 := by
    rw [hg4.2.2.1]
    exact hrun
  by_cases hodd : mf.len = 0 ∨ (mf.len - 1) % 2 = 1
  · have hpush : midi_frame_push r mf =
        (MIDIF_ERROR,
         { (midi_reader_get_byte r).2 with push_back := (b : Int), running := 0 },
         midi_frame_reset mf) := by
      unfold midi_frame_push
      rw [if_neg hlen]
      dsimp only
      rw [hg1]
      rw [if_neg (by omega : ¬ ((b : Int) < 0))]
      rw [if_neg (by omega : ¬ ((0xFF : Int) < (b : Int)))]
      simp only [Int.toNat_natCast]
      rw [if_pos (And.intro hrcond hbit)]
      rw [if_pos hodd]
    rw [hpush]
    exact ⟨rfl, rfl, fun _ => ⟨rfl, rfl⟩, fun hc => absurd hodd hc⟩
  · have hpush : midi_frame_push r mf =
        ((midi_frame_process r mf).1,
         { (midi_reader_get_byte r).2 with push_back := (b : Int), running := 0 },
         (midi_frame_process r mf).2) := by
      unfold midi_frame_push
      rw [if_neg hlen]
      dsimp only
      rw [hg1]
      rw [if_neg (by omega : ¬ ((b : Int) < 0))]
      rw [if_neg (by omega : ¬ ((0xFF : Int) < (b : Int)))]
      simp only [Int.toNat_natCast]
      rw [if_pos (And.intro hrcond hbit)]
      rw [if_neg hodd]
      rw [process_congr { (midi_reader_get_byte r).2 with push_back := (b : Int), running := 0 }
        r mf hg4.2.2.2.2.2.2 hg4.1]
    rw [hpush]
    exact ⟨rfl, rfl, fun hc => absurd hc hodd, fun _ => ⟨rfl, rfl⟩⟩

/-- Witness for C1 at a concrete state: running status 0x90, pending
byte 0x80 and a frame of two bytes (odd data-byte count) gives
MIDIF_ERROR with running status cleared and the byte kept in the
push-back slot. -/
theorem push_running_finalize_witness :
    (midi_frame_push c1w_reader c1w_frame).1 = MIDIF_ERROR ∧
    (midi_frame_push c1w_reader c1w_frame).2.1.running = 0 ∧
    (midi_frame_push c1w_reader c1w_frame).2.1.push_back = ((0x80 : Nat) : Int) := by
  obtain ⟨w1, w2, w3, w4⟩ :=
    push_running_finalize c1w_reader c1w_frame 0x80 [] (by decide) (by decide) (by decide)
      (by decide) (by decide)
  exact ⟨(w3 (by decide)).1, w1, w2⟩

/-- The post-processor never reports MIDIF_IOERROR. -/
theorem process_ne_ioerror (r2 : midi_reader_t) (mf2 : midi_frame_t) :
    (midi_frame_process r2 mf2).1 ≠ MIDIF_IOERROR := by
  unfold midi_frame_process
  dsimp only
  split
  · simp
  · split <;> simp

/-- The append tail of a push never reports MIDIF_IOERROR. -/
theorem push_append_ne_ioerror (r2 : midi_reader_t) (mf : midi_frame_t) (bn : Nat) :
    (midi_frame_push_append r2 mf bn).1 ≠ MIDIF_IOERROR := by
  unfold midi_frame_push_append
  dsimp only
  split
  · simp
  · split
    · split
      · exact process_ne_ioerror _ _
      · simp
    · split
      · exact process_ne_ioerror _ _
      · simp

/-- After reset and refill the window still holds unsigned chars. -/
theorem refill_buf_bounded (r : midi_reader_t)
    (hbuf : ∀ x ∈ r.buf, x ≤ 0xFF) (hin : ∀ x ∈ r.input, x ≤ 0xFF) :
    ∀ x ∈ (window_refill (window_reset r)).buf, x ≤ 0xFF := by
  have hreset_buf : (window_reset r).buf = r.buf := (window_reset_spec r).1
  have hreset_in : (window_reset r).input = r.input := (window_reset_spec r).2.1
  intro x hx
  unfold window_refill at hx
  split_ifs at hx with hc
  · dsimp only at hx
    rcases List.mem_append.mp hx with hm | hm
    · rw [hreset_buf] at hm
      exact hbuf x hm
    · have hm2 := List.take_subset _ _ hm
      rw [hreset_in] at hm2
      exact hin x hm2
  · rw [hreset_buf] at hx
    exact hbuf x hx

/-- After reset and refill the remaining device stream still holds
unsigned chars. -/
theorem refill_input_bounded (r : midi_reader_t)
    (hin : ∀ x ∈ r.input, x ≤ 0xFF) :
    ∀ x ∈ (window_refill (window_reset r)).input, x ≤ 0xFF := by
  have hreset_in : (window_reset r).input = r.input := (window_reset_spec r).2.1
  intro x hx
  unfold window_refill at hx
  split_ifs at hx with hc
  · dsimp only at hx
    have hm2 := List.drop_subset _ _ hx
    rw [hreset_in] at hm2
    exact hin x hm2
  · rw [hreset_in] at hx
    exact hin x hx

/-- Obtaining a byte preserves the byte-range invariant. -/
theorem get_byte_byte_inv (r : midi_reader_t) (h : byte_inv r) :
    byte_inv (midi_reader_get_byte r).2 := by
  obtain ⟨h1, h2, h3⟩ := h
  unfold midi_reader_get_byte
  by_cases hpbc : -1 < r.push_back
  · rw [if_pos hpbc]
    unfold byte_inv
    exact ⟨h1, h2, by norm_num⟩
  · rw [if_neg hpbc]
    have hmb := refill_buf_bounded r h1 h2
    have hmi := refill_input_bounded r h2
    have hpb2 : (window_refill (window_reset r)).push_back = r.push_back :=
      (window_refill_spec (window_reset r)).2.1.trans (window_reset_spec r).2.2.1
    cases hbc : (window_refill (window_reset r)).buf with
    | nil =>
      rw [window_take_nil _ hbc]
      unfold byte_inv
      refine ⟨?_, hmi, by rw [hpb2]; exact h3⟩
      rw [hbc]
      simp
    | cons c rest =>
      rw [window_take_cons _ c rest hbc]
      unfold byte_inv
      refine ⟨?_, hmi, by rw [hpb2]; exact h3⟩
      intro x hx
      exact hmb x (by rw [hbc]; exact List.mem_cons_of_mem c hx)

/-- C9: in a reader whose byte sources satisfy the byte-range invariant
(refill window and device stream hold unsigned chars, push-back at most
0xFF), the obtained byte is -1 or in 0..255, a push never reports
MIDIF_IOERROR, and the invariant is preserved, so it holds in every
reachable state. -/
theorem push_no_ioerror (r : midi_reader_t) (mf : midi_frame_t) (h : byte_inv r) :
    (-1 ≤ (midi_reader_get_byte r).1 ∧ (midi_reader_get_byte r).1 ≤ 0xFF) ∧
    (midi_frame_push r mf).1 ≠ MIDIF_IOERROR ∧
    byte_inv (midi_frame_push r mf).2.1 := by
  obtain ⟨hbuf, hin, hpb⟩ := h
  have hreset_buf : (window_reset r).buf = r.buf := (window_reset_spec r).1
  have hreset_in : (window_reset r).input = r.input := (window_reset_spec r).2.1
  have hrange : -1 ≤ (midi_reader_get_byte r).1 ∧ (midi_reader_get_byte r).1 ≤ 0xFF := by
    unfold midi_reader_get_byte
    by_cases hpbc : -1 < r.push_back
    · rw [if_pos hpbc]
      exact ⟨by omega, hpb⟩
    · rw [if_neg hpbc]
      have hmem := refill_buf_bounded r hbuf hin
      cases hbc : (window_refill (window_reset r)).buf with
      | nil =>
        rw [window_take_nil _ hbc]
        norm_num
      | cons c rest =>
        rw [window_take_cons _ c rest hbc]
        have hcle : c ≤ 0xFF := hmem c (by rw [hbc]; exact List.mem_cons_self c rest)
        constructor
        · show (-1 : Int) ≤ (c : Int)
          omega
        · show ((c : Nat) : Int) ≤ 0xFF
          omega
  have hby : byte_inv (midi_reader_get_byte r).2 := get_byte_byte_inv r ⟨hbuf, hin, hpb⟩
  have hby_pb : byte_inv { (midi_reader_get_byte r).2 with
      push_back := ((midi_reader_get_byte r).1.toNat : Int), running := 0 } := by
    obtain ⟨k1, k2, k3⟩ := hby
    unfold byte_inv
    refine ⟨k1, k2, ?_⟩
    dsimp only
    omega
  have happ : ∀ r2 : midi_reader_t, byte_inv r2 →
      byte_inv (midi_frame_push_append r2 mf (midi_reader_get_byte r).1.toNat).2.1 := by
    intro r2 h2
    obtain ⟨k1, k2, k3⟩ := h2
    unfold midi_frame_push_append
    dsimp only
    split
    · exact ⟨k1, k2, k3⟩
    · split
      · split
        · exact ⟨k1, k2, k3⟩
        · exact ⟨k1, k2, k3⟩
      · split
        · exact ⟨k1, k2, k3⟩
        · exact ⟨k1, k2, k3⟩
  refine ⟨hrange, ?_, ?_⟩
  · unfold midi_frame_push
    by_cases hmax : mf.len = MIDI_FRAME_MAX
    · rw [if_pos hmax]
      simp
    · rw [if_neg hmax]
      dsimp only
      by_cases h0 : (midi_reader_get_byte r).1 < 0
      · rw [if_pos h0]
        simp
      · rw [if_neg h0]
        rw [if_neg (show ¬ ((0xFF : Int) < (midi_reader_get_byte r).1) by omega)]
        by_cases hrb : (midi_reader_get_byte r).2.running ≠ 0 ∧
            (midi_reader_get_byte r).1.toNat &&& 0x80 ≠ 0
        · rw [if_pos hrb]
          by_cases hodd : mf.len = 0 ∨ (mf.len - 1) % 2 = 1
          · rw [if_pos hodd]
            simp
          · rw [if_neg hodd]
            exact process_ne_ioerror _ _
        · rw [if_neg hrb]
          exact push_append_ne_ioerror _ _ _
  · unfold midi_frame_push
    by_cases hmax : mf.len = MIDI_FRAME_MAX
    · rw [if_pos hmax]
      exact ⟨hbuf, hin, hpb⟩
    · rw [if_neg hmax]
      dsimp only
      by_cases h0 : (midi_reader_get_byte r).1 < 0
      · rw [if_pos h0]
        exact hby
      · rw [if_neg h0]
        by_cases hff : (0xFF : Int) < (midi_reader_get_byte r).1
        · rw [if_pos hff]
          exact hby
        · rw [if_neg hff]
          by_cases hrb : (midi_reader_get_byte r).2.running ≠ 0 ∧
              (midi_reader_get_byte r).1.toNat &&& 0x80 ≠ 0
          · rw [if_pos hrb]
            by_cases hodd : mf.len = 0 ∨ (mf.len - 1) % 2 = 1
            · rw [if_pos hodd]
              exact hby_pb
            · rw [if_neg hodd]
              exact hby_pb
          · rw [if_neg hrb]
            apply happ
            split_ifs
            · exact ⟨hby.1, hby.2.1, hby.2.2⟩
            · exact ⟨hby.1, hby.2.1, hby.2.2⟩
            · exact hby

/-- Witness for C9 at a concrete state: a reader holding the single
device byte 0xF8 pushes without an I/O error. -/
theorem push_no_ioerror_witness :
    (midi_frame_push c9w_reader frameZero).1 ≠ MIDIF_IOERROR :=
  (push_no_ioerror c9w_reader frameZero (by unfold byte_inv; decide)).2.1

/-- Obtaining a byte never touches the frame queue or configuration. -/
theorem get_byte_queue (r : midi_reader_t) :
    (midi_reader_get_byte r).2.frames = r.frames ∧
    (midi_reader_get_byte r).2.frames_len = r.frames_len ∧
    (midi_reader_get_byte r).2.frames_offset = r.frames_offset := by
  unfold midi_reader_get_byte
  by_cases hpbc : -1 < r.push_back
  · rw [if_pos hpbc]
    exact ⟨rfl, rfl, rfl⟩
  · rw [if_neg hpbc]
    obtain ⟨ha1, ha2, ha3, ha4, ha5⟩ := window_reset_spec r
    obtain ⟨hb1, hb2, hb3⟩ := window_refill_spec (window_reset r)
    have hfr : (window_refill (window_reset r)).frames = r.frames :=
      hb3.2.2.2.2.2.1.trans ha4.2.2.2.2.2.1
    have hfl : (window_refill (window_reset r)).frames_len = r.frames_len :=
      hb3.2.2.2.1.trans ha4.2.2.2.1
    have hfo : (window_refill (window_reset r)).frames_offset = r.frames_offset :=
      hb3.2.2.2.2.1.trans ha4.2.2.2.2.1
    cases hbc : (window_refill (window_reset r)).buf with
    | nil =>
      rw [window_take_nil _ hbc]
      exact ⟨hfr, hfl, hfo⟩
    | cons c rest =>
      rw [window_take_cons _ c rest hbc]
      exact ⟨hfr, hfl, hfo⟩

/-- The append tail of a push never touches the frame queue. -/
theorem push_append_queue (r2 : midi_reader_t) (mf : midi_frame_t) (bn : Nat) :
    (midi_frame_push_append r2 mf bn).2.1.frames = r2.frames ∧
    (midi_frame_push_append r2 mf bn).2.1.frames_len = r2.frames_len ∧
    (midi_frame_push_append r2 mf bn).2.1.frames_offset = r2.frames_offset := by
  unfold midi_frame_push_append
  dsimp only
  split
  · exact ⟨rfl, rfl, rfl⟩
  · split
    · split
      · exact ⟨rfl, rfl, rfl⟩
      · exact ⟨rfl, rfl, rfl⟩
    · split
      · exact ⟨rfl, rfl, rfl⟩
      · exact ⟨rfl, rfl, rfl⟩

/-- A push never touches the frame queue of the reader it returns. -/
theorem push_queue (r : midi_reader_t) (mf : midi_frame_t) :
    (midi_frame_push r mf).2.1.frames = r.frames ∧
    (midi_frame_push r mf).2.1.frames_len = r.frames_len ∧
    (midi_frame_push r mf).2.1.frames_offset = r.frames_offset := by
  obtain ⟨q1, q2, q3⟩ := get_byte_queue r
  unfold midi_frame_push
  by_cases hmax : mf.len = MIDI_FRAME_MAX
  · rw [if_pos hmax]
    exact ⟨rfl, rfl, rfl⟩
  · rw [if_neg hmax]
    dsimp only
    by_cases h0 : (midi_reader_get_byte r).1 < 0
    · rw [if_pos h0]
      exact ⟨q1, q2, q3⟩
    · rw [if_neg h0]
      by_cases hff : (0xFF : Int) < (midi_reader_get_byte r).1
      · rw [if_pos hff]
        exact ⟨q1, q2, q3⟩
      · rw [if_neg hff]
        by_cases hrb : (midi_reader_get_byte r).2.running ≠ 0 ∧
            (midi_reader_get_byte r).1.toNat &&& 0x80 ≠ 0
        · rw [if_pos hrb]
          by_cases hodd : mf.len = 0 ∨ (mf.len - 1) % 2 = 1
          · rw [if_pos hodd]
            exact ⟨q1, q2, q3⟩
          · rw [if_neg hodd]
            exact ⟨q1, q2, q3⟩
        · rw [if_neg hrb]
          refine ⟨?_, ?_, ?_⟩
          · rw [(push_append_queue _ _ _).1]
            split_ifs <;> exact q1
          · rw [(push_append_queue _ _ _).2.1]
            split_ifs <;> exact q2
          · rw [(push_append_queue _ _ _).2.2]
            split_ifs <;> exact q3

/-- With a closed descriptor, obtaining a byte reads nothing from the
device and the descriptor stays closed. -/
theorem closed_get_byte_input (r : midi_reader_t) (h : r.fd_open = false) :
    (midi_reader_get_byte r).2.input = r.input ∧
    (midi_reader_get_byte r).2.fd_open = false := by
  unfold midi_reader_get_byte
  by_cases hpbc : -1 < r.push_back
  · rw [if_pos hpbc]
    exact ⟨rfl, h⟩
  · rw [if_neg hpbc]
    obtain ⟨ha1, ha2, ha3, ha4, ha5⟩ := window_reset_spec r
    have hfo : (window_reset r).fd_open = false := ha4.2.1.trans h
    have hrefill : window_refill (window_reset r) = window_reset r := by
      unfold window_refill
      rw [if_neg (fun hc => by rw [hfo] at hc; exact absurd hc.2 (by simp))]
    rw [hrefill]
    cases hbc : (window_reset r).buf with
    | nil =>
      rw [window_take_nil _ hbc]
      exact ⟨ha2, hfo⟩
    | cons c rest =>
      rw [window_take_cons _ c rest hbc]
      exact ⟨ha2, hfo⟩

/-- The append tail of a push keeps the device stream and descriptor
state. -/
theorem push_append_input (r2 : midi_reader_t) (mf : midi_frame_t) (bn : Nat) :
    (midi_frame_push_append r2 mf bn).2.1.input = r2.input ∧
    (midi_frame_push_append r2 mf bn).2.1.fd_open = r2.fd_open := by
  unfold midi_frame_push_append
  dsimp only
  split
  · exact ⟨rfl, rfl⟩
  · split
    · split
      · exact ⟨rfl, rfl⟩
      · exact ⟨rfl, rfl⟩
    · split
      · exact ⟨rfl, rfl⟩
      · exact ⟨rfl, rfl⟩

/-- With a closed descriptor, a push reads nothing from the device and
the descriptor stays closed. -/
theorem closed_push_input (r : midi_reader_t) (mf : midi_frame_t) (h : r.fd_open = false) :
    (midi_frame_push r mf).2.1.input = r.input ∧
    (midi_frame_push r mf).2.1.fd_open = false := by
  obtain ⟨q1, q2⟩ := closed_get_byte_input r h
  unfold midi_frame_push
  by_cases hmax : mf.len = MIDI_FRAME_MAX
  · rw [if_pos hmax]
    exact ⟨rfl, h⟩
  · rw [if_neg hmax]
    dsimp only
    by_cases h0 : (midi_reader_get_byte r).1 < 0
    · rw [if_pos h0]
      exact ⟨q1, q2⟩
    · rw [if_neg h0]
      by_cases hff : (0xFF : Int) < (midi_reader_get_byte r).1
      · rw [if_pos hff]
        exact ⟨q1, q2⟩
      · rw [if_neg hff]
        by_cases hrb : (midi_reader_get_byte r).2.running ≠ 0 ∧
            (midi_reader_get_byte r).1.toNat &&& 0x80 ≠ 0
        · rw [if_pos hrb]
          by_cases hodd : mf.len = 0 ∨ (mf.len - 1) % 2 = 1
          · rw [if_pos hodd]
            exact ⟨q1, q2⟩
          · rw [if_neg hodd]
            exact ⟨q1, q2⟩
        · rw [if_neg hrb]
          constructor
          · rw [(push_append_input _ _ _).1]
            split_ifs <;> exact q1
          · rw [(push_append_input _ _ _).2]
            split_ifs <;> exact q2

/-- With a closed descriptor, reading one frame forward consumes no
device bytes. -/
theorem closed_read_one_input (r : midi_reader_t) (h : r.fd_open = false) :
    (midi_reader_read_one r).2.input = r.input ∧
    (midi_reader_read_one r).2.fd_open = false := by
  obtain ⟨q1, q2⟩ := closed_push_input r (r.frames.getD r.frames_len frameZero) h
  unfold midi_reader_read_one
  dsimp only
  split
  · exact ⟨q1, q2⟩
  · exact ⟨q1, q2⟩

/-- With a closed descriptor, update consumes no device bytes and the
descriptor stays closed. -/
theorem closed_update_input (r : midi_reader_t) (h : r.fd_open = false) :
    (midi_reader_update r).2.input = r.input ∧
    (midi_reader_update r).2.fd_open = false := by
  unfold midi_reader_update
  by_cases h1 : r.frames_len = 0
  · rw [if_pos h1]
    exact closed_read_one_input r h
  · rw [if_neg h1]
    by_cases h2 : r.frames_len < MIDI_FRAMES_MAX
    · rw [if_pos h2]
      by_cases h3 : r.frames_offset < r.frames_len
      · rw [if_pos h3]
        exact ⟨rfl, h⟩
      · rw [if_neg h3]
        exact closed_read_one_input r h
    · rw [if_neg h2]
      by_cases h3 : r.frames_offset < r.frames_len
      · rw [if_pos h3]
        exact ⟨rfl, h⟩
      · rw [if_neg h3]
        exact closed_read_one_input (clear_frames r) (by exact h)

/-- With a closed descriptor, draining the next frame consumes no
device bytes and the descriptor stays closed. -/
theorem closed_get_next_input (r : midi_reader_t) (h : r.fd_open = false) :
    (midi_reader_get_next r).2.input = r.input ∧
    (midi_reader_get_next r).2.fd_open = false := by
  obtain ⟨q1, q2⟩ := closed_update_input r h
  unfold midi_reader_get_next
  dsimp only
  split
  · exact ⟨q1, q2⟩
  · split
    · exact ⟨q1, q2⟩
    · exact ⟨q1, q2⟩

/-- C7 (amended): when the queue is fully drained below capacity, the
next completed frame is stored at the current write cursor without any
cursor reset: the read cursor keeps its value, the write cursor grows by
one, only the slot at the old write cursor changes. -/
theorem drained_no_reset (r : midi_reader_t) (r1 : midi_reader_t) (f1 : midi_frame_t)
    (hoff : r.frames_offset = r.frames_len) (hlt : r.frames_len < MIDI_FRAMES_MAX)
    (hframes : r.frames.length = MIDI_FRAMES_MAX)
    (hpush : midi_frame_push r (r.frames.getD r.frames_len frameZero) =
      (MIDIF_COMPLETE, r1, f1)) :
    (midi_reader_update r).1 = true ∧
    (midi_reader_update r).2.frames_offset = r.frames_offset ∧
    (midi_reader_update r).2.frames_len = r.frames_len + 1 ∧
    (midi_reader_update r).2.frames.getD r.frames_len frameZero = f1 ∧
    (∀ i, i ≠ r.frames_len →
      (midi_reader_update r).2.frames.getD i frameZero = r.frames.getD i frameZero) := by
  obtain ⟨pq1, pq2, pq3⟩ := push_queue r (r.frames.getD r.frames_len frameZero)
  rw [hpush] at pq1 pq2 pq3
  have hro : midi_reader_read_one r = (MIDIF_COMPLETE,
      { r1 with frames := r1.frames.set r.frames_len f1, frames_len := r1.frames_len + 1 }) := by
    unfold midi_reader_read_one
    dsimp only
    rw [hpush]
    dsimp only
    rw [if_pos rfl]
  have hup : midi_reader_update r = (true,
      { r1 with frames := r1.frames.set r.frames_len f1, frames_len := r1.frames_len + 1 }) := by
    unfold midi_reader_update
    by_cases hz : r.frames_len = 0
    · rw [if_pos hz]
      dsimp only
      rw [hro]
      simp
    · rw [if_neg hz, if_pos hlt, if_neg (by omega : ¬ r.frames_offset < r.frames_len)]
      dsimp only
      rw [hro]
      simp
  rw [hup]
  refine ⟨rfl, by dsimp only; exact pq3, by dsimp only; rw [pq2], ?_, ?_⟩
  · dsimp only
    rw [pq1]
    simp only [List.getD_eq_getElem?_getD]
    rw [List.getElem?_set_self (by omega)]
    simp
  · intro i hi
    dsimp only
    rw [pq1]
    simp only [List.getD_eq_getElem?_getD]
    rw [List.getElem?_set_ne (by omega)]

/-- Witness for the amended C7 at a concrete state: both cursors 1, one
device byte; the new frame lands in slot 1 and the cursors stay put. -/
theorem drained_no_reset_witness :
    (midi_reader_update c7x_reader).1 = true ∧
    (midi_reader_update c7x_reader).2.frames_offset = 1 ∧
    (midi_reader_update c7x_reader).2.frames_len = 2 := by
  have h := drained_no_reset c7x_reader
    (midi_frame_push c7x_reader (c7x_reader.frames.getD c7x_reader.frames_len frameZero)).2.1
    (midi_frame_push c7x_reader (c7x_reader.frames.getD c7x_reader.frames_len frameZero)).2.2
    (by decide) (by decide)
    (by
      show ((List.replicate MIDI_FRAMES_MAX frameZero).set 0
        (⟨[0x90, 1, 2]⟩ : midi_frame_t)).length = MIDI_FRAMES_MAX
      simp)
    (by decide)
  exact ⟨h.1, h.2.1, h.2.2.1⟩

/-- Counterexample to C7 as stated: a fully drained queue (both cursors
1) receives the next frame in slot 1 with the read cursor still 1 - the
cursors are not reset to 0 before the next frame is stored. -/
theorem drained_reset_counterexample :
    c7x_reader.frames_offset = c7x_reader.frames_len ∧
    (midi_reader_update c7x_reader).2.frames_len = 2 ∧
    (midi_reader_update c7x_reader).2.frames_offset = 1 ∧
    (midi_reader_update c7x_reader).2.frames.getD 1 frameZero = ⟨[0xF8]⟩ := by
  decide

/-- C2 (amended): with the write cursor at capacity, update leaves the
queue untouched while draining is incomplete; once draining is complete
the whole queue is cleared (both cursors and every slot) and decoding
resumes into slot 0 of the empty queue. -/
theorem update_at_capacity (r : midi_reader_t)
    (hlen : r.frames_len = MIDI_FRAMES_MAX)
    (r1 : midi_reader_t) (f1 : midi_frame_t)
    (hpush : midi_frame_push (clear_frames r) frameZero = (MIDIF_COMPLETE, r1, f1)) :
    (r.frames_offset < r.frames_len → midi_reader_update r = (true, r)) ∧
    (r.frames_offset = r.frames_len →
      (midi_reader_update r).1 = true ∧
      (midi_reader_update r).2.frames_len = 1 ∧
      (midi_reader_update r).2.frames_offset = 0 ∧
      (midi_reader_update r).2.frames.getD 0 frameZero = f1 ∧
      (∀ i, 1 ≤ i → (midi_reader_update r).2.frames.getD i frameZero = frameZero)) := by
  have hz : ¬ r.frames_len = 0 := by
    rw [hlen]
    decide
  have hnl : ¬ r.frames_len < MIDI_FRAMES_MAX := by
    rw [hlen]
    simp
  constructor
  · intro hol
    unfold midi_reader_update
    rw [if_neg hz, if_neg hnl, if_pos hol]
  · intro hoe
    obtain ⟨pq1, pq2, pq3⟩ := push_queue (clear_frames r) frameZero
    rw [hpush] at pq1 pq2 pq3
    have hcur : (clear_frames r).frames.getD (clear_frames r).frames_len frameZero = frameZero := by
      rfl
    have hro : midi_reader_read_one (clear_frames r) = (MIDIF_COMPLETE,
        { r1 with frames := r1.frames.set (clear_frames r).frames_len f1
                , frames_len := r1.frames_len + 1 }) := by
      unfold midi_reader_read_one
      dsimp only
      rw [hcur, hpush]
      dsimp only
      rw [if_pos rfl]
    have hup : midi_reader_update r = (true,
        { r1 with frames := r1.frames.set (clear_frames r).frames_len f1
                , frames_len := r1.frames_len + 1 }) := by
      unfold midi_reader_update
      rw [if_neg hz, if_neg hnl, if_neg (by omega : ¬ r.frames_offset < r.frames_len)]
      dsimp only
      rw [hro]
      simp
    rw [hup]
    have hr1f : r1.frames = List.replicate MIDI_FRAMES_MAX frameZero := pq1
    have hr1l : r1.frames_len = 0 := pq2
    have hr1o : r1.frames_offset = 0 := pq3
    refine ⟨rfl, by dsimp only; rw [hr1l], by dsimp only; rw [hr1o], ?_, ?_⟩
    · dsimp only
      rw [hr1f]
      simp only [List.getD_eq_getElem?_getD]
      rw [show (clear_frames r).frames_len = 0 from rfl]
      have hlen0 : (0 : Nat) < (List.replicate MIDI_FRAMES_MAX frameZero).length := by
        simp [MIDI_FRAMES_MAX]
      rw [List.getElem?_set_self hlen0]
      simp
    · intro i hi
      dsimp only
      rw [hr1f]
      simp only [List.getD_eq_getElem?_getD]
      rw [show (clear_frames r).frames_len = 0 from rfl]
      rw [List.getElem?_set_ne (by omega)]
      rw [List.getElem?_replicate]
      split <;> simp

/-- Witness for the amended C2 at a concrete state: queue at capacity
and fully drained, one buffered byte; after update the queue holds one
frame at slot 0 with both cursors reset. -/
theorem update_at_capacity_witness :
    (midi_reader_update c2w_reader).2.frames_len = 1 ∧
    (midi_reader_update c2w_reader).2.frames_offset = 0 := by
  have h := update_at_capacity c2w_reader rfl
    (midi_frame_push (clear_frames c2w_reader) frameZero).2.1
    (midi_frame_push (clear_frames c2w_reader) frameZero).2.2
    (by decide)
  exact ⟨(h.2 rfl).2.1, (h.2 rfl).2.2.1⟩

/-- Counterexample to C2 as stated: the write cursor is at capacity and
draining is incomplete (read cursor 3), yet update leaves the queue
exactly as it was - nothing is cleared and slot 3 keeps its frame. -/
theorem capacity_middrain_not_cleared :
    c2x_reader.frames_offset < c2x_reader.frames_len ∧
    midi_reader_update c2x_reader = (true, c2x_reader) ∧
    (midi_reader_update c2x_reader).2.frames_len = MIDI_FRAMES_MAX ∧
    (midi_reader_update c2x_reader).2.frames.getD 3 frameZero = ⟨[0x90, 1, 2]⟩ := by
  refine ⟨by decide, rfl, by decide, by decide⟩

/-- C8 (amended): closing the reader clears the descriptor and the
push-back slot but leaves the queue and the refill window; frames
already finalized stay drainable in FIFO order, and no subsequent drain
reads a byte from the device (only bytes already buffered in the refill
window can still be decoded). -/
theorem close_keeps_queue (r : midi_reader_t) (hq : r.frames_offset < r.frames_len) :
    (midi_reader_close r).frames = r.frames ∧
    (midi_reader_close r).frames_len = r.frames_len ∧
    (midi_reader_close r).frames_offset = r.frames_offset ∧
    (midi_reader_close r).fd_open = false ∧
    (midi_reader_close r).push_back = -1 ∧
    (midi_reader_close r).buf = r.buf ∧
    midi_reader_get_next (midi_reader_close r) =
      (some (r.frames.getD r.frames_offset frameZero),
       { midi_reader_close r with frames_offset := r.frames_offset + 1 }) ∧
    (midi_reader_get_next (midi_reader_close r)).2.input = r.input ∧
    (midi_reader_get_next (midi_reader_close r)).2.fd_open = false := by
  have hup : midi_reader_update (midi_reader_close r) = (true, midi_reader_close r) := by
    unfold midi_reader_update
    rw [if_neg (show ¬ (midi_reader_close r).frames_len = 0 by dsimp only [midi_reader_close]; omega)]
    by_cases hlt : (midi_reader_close r).frames_len < MIDI_FRAMES_MAX
    · rw [if_pos hlt, if_pos (show (midi_reader_close r).frames_offset <
        (midi_reader_close r).frames_len from hq)]
    · rw [if_neg hlt, if_pos (show (midi_reader_close r).frames_offset <
        (midi_reader_close r).frames_len from hq)]
  have hgn : midi_reader_get_next (midi_reader_close r) =
      (some (r.frames.getD r.frames_offset frameZero),
       { midi_reader_close r with frames_offset := r.frames_offset + 1 }) := by
    unfold midi_reader_get_next
    rw [hup]
    dsimp only
    rw [if_neg (by simp)]
    rw [if_pos (And.intro (show 0 < (midi_reader_close r).frames_len by
      dsimp only [midi_reader_close]; omega) (show (midi_reader_close r).frames_offset <
      (midi_reader_close r).frames_len from hq))]
    rfl
  refine ⟨rfl, rfl, rfl, rfl, rfl, rfl, hgn, ?_, ?_⟩
  · exact (closed_get_next_input (midi_reader_close r) rfl).1
  · exact (closed_get_next_input (midi_reader_close r) rfl).2

/-- Witness for the amended C8 at a concrete state: one queued frame
survives close and is drained unchanged. -/
theorem close_keeps_queue_witness :
    midi_reader_get_next (midi_reader_close c8w_reader) =
      (some (c8w_reader.frames.getD c8w_reader.frames_offset frameZero),
       { midi_reader_close c8w_reader with frames_offset := c8w_reader.frames_offset + 1 }) :=
  (close_keeps_queue c8w_reader (by decide)).2.2.2.2.2.2.1

/-- Counterexample to C8 as stated: after close, a byte already in the
refill window still decodes into a brand-new frame (the queue was empty
at close time), while the device stream is left untouched. -/
theorem close_buffered_decode :
    c8x_reader.frames_len = 0 ∧
    (midi_reader_get_next (midi_reader_close c8x_reader)).1 = some ⟨[0xF8]⟩ ∧
    (midi_reader_get_next (midi_reader_close c8x_reader)).2.input = c8x_reader.input := by
  refine ⟨rfl, by decide, by decide⟩
